import Mathlib

/-!
# Remotebuild: UploadJob state machine, upload dispatch and recent-job listing

A shallow embedding of `models/UploadJob.go` and `services/JobService.go`.

* Go strings are lists of characters (`Str`), a nil-able `error` is `Option GoError`.
* The cancellation channel `chan bool` of buffer depth 1 is `Option (List Bool)`:
  `none` is the nil channel, `some buf` an initialised channel holding `buf`.
* Everything outside the process (filesystem, DataManager server, execution trace) is threaded
  through a `World`; the outcomes of calls that the program cannot influence (`os.Open`,
  `UploadFile`, `base64Decode`) come from an `Env`.
* Operations are sequential: a send that cannot proceed has no receiver to wait for, so it is
  reported as `none` (the caller blocks).
-/

namespace Remotebuild

/-- Go `string`. -/
abbrev Str := List Char

/-- Go `error` value (non-nil), reduced to its kind: the operation and the path that a
`*PathError` carries are left out. -/
structure GoError where
  msg : String
deriving DecidableEq, Repr

/-- Modelled from the spec: `libremotebuild.JobState` is declared outside the sources at hand.
States: Waiting, Running, Done, Failed, Cancelled. -/
inductive JobState where
  | JobWaiting
  | JobRunning
  | JobDone
  | JobFailed
  | JobCancelled
deriving DecidableEq, Repr

/-- Modelled from the spec: `libremotebuild.UploadType` is declared outside the sources at hand.
The selector has the two values the code dispatches on; every other value of the underlying
integer type is `unknown`. -/
inductive UploadType where
  | DataManagerUploadType
  | LocalStorage
  | unknown (code : Nat)
deriving DecidableEq, Repr

/-- `ErrNoManagerDataAvailable` of `UploadJob.go`. -/
def ErrNoManagerDataAvailable : GoError := ⟨"No DManager data available"⟩

/-- `ErrNoVaildUploadMetodPassed` of `UploadJob.go`. -/
def ErrNoVaildUploadMetodPassed : GoError := ⟨"No vaild upolad method passed"⟩

/-- `UploadJob` of `UploadJob.go`; of `gorm.Model` only the primary key is kept. -/
structure UploadJob where
  ID : Nat
  State : JobState
  Type_ : UploadType
  cancelChan : Option (List Bool)
deriving DecidableEq, Repr

/-- `UploadJobResult` of `UploadJob.go`. -/
structure UploadJobResult where
  Error : Option GoError
deriving DecidableEq, Repr

/-- Modelled from the spec: the result information of a `BuildResult` (job id, package name,
version, list of produced file paths); the type is declared outside the sources at hand. -/
structure ResInfo where
  JobID : Nat
  Name : Str
  Version : Str
  Files : List Str
deriving DecidableEq, Repr

/-- Modelled from the spec: `BuildResult`, of which `UploadJob` reads `resinfo` only. -/
structure BuildResult where
  resinfo : ResInfo
deriving DecidableEq, Repr

/-- Modelled from the spec: the DataManager credentials returned by `ArgParser.GetDManagerData`. -/
structure DManagerData where
  Token : Str
  Host : Str
  Username : Str
  Namespace : Str
deriving DecidableEq, Repr

/-- Modelled from the spec: `ArgParser` is declared outside the sources at hand; its three
accessors used by `UploadJob` (`HasDataManagerArgs`, `GetDManagerData`, `HasNamespace`) are
fields. -/
structure ArgParser where
  HasDataManagerArgs : Bool
  GetDManagerData : DManagerData
  HasNamespace : Bool
deriving DecidableEq, Repr

/-- Modelled from the spec: `Config`, of which `UploadJob` reads `Server.LocalStoragePath`. -/
structure Config where
  LocalStoragePath : Str
deriving DecidableEq, Repr

/-- `libdatamanager.FileAttributes` as filled in by `uploadDmanager`. -/
structure FileAttributes where
  Groups : List Str
  Tags : List Str
  Namespace : Str
deriving DecidableEq, Repr

/-- One upload request: the request configuration, the remote file name and its attributes. -/
structure UploadRequest where
  URL : Str
  Username : Str
  SessionToken : Str
  Name : Str
  Attributes : FileAttributes
deriving DecidableEq, Repr

/-- What one call of `UploadFile` does: its error, and whether it received the token pending on
the cancellation channel it was handed. -/
structure UploadOutcome where
  err : Option GoError
  tokenTaken : Bool
deriving DecidableEq, Repr

/-- Observable steps of an execution, in program order. -/
inductive Event where
  | setState (s : JobState)
  | chanSend (v : Bool)
  | removeAll (path : Str)
  | copy (src dst : Str)
  | osOpen (file : Str)
  | uploadFile (name : Str)
deriving DecidableEq, Repr

/-- Local filesystem: the regular files by absolute path (list of path elements) with their
content, and the subtrees on which removal and writing are denied. A directory exists when a
file lies beneath it. -/
structure FileSystem where
  files : List (List Str × Str)
  locked : List (List Str)
deriving DecidableEq, Repr

/-- Everything outside the job: working directory (its elements from the root), filesystem,
files stored on the DataManager server, and the trace of steps executed so far. -/
structure World where
  cwd : List Str
  fs : FileSystem
  remote : List UploadRequest
  trace : List Event
deriving DecidableEq, Repr

/-- Outcomes of the external calls: `base64Decode` of the session token, `os.Open` of the
artifact at a position of the file list, `UploadFile` of the request at that position. -/
structure Env where
  base64Decode : Str → Except GoError Str
  osOpen : Nat → Str → Option GoError
  uploadFile : Nat → UploadRequest → UploadOutcome

/-- What an operation hands back: the job as mutated through the pointer receiver, the returned
`*UploadJobResult` (`none` is the nil pointer) and the world. -/
structure Outcome where
  job : UploadJob
  result : Option UploadJobResult
  world : World
deriving DecidableEq, Repr

/-! ## Lexical path functions (`path/filepath` on Unix) -/

/-- Split at every separator; `a//b` has an empty element in the middle. -/
def splitSlash : Str → List Str
  | [] => [[]]
  | c :: cs =>
    if c = '/' then [] :: splitSlash cs
    else
      match splitSlash cs with
      | [] => [[c]]
      | w :: ws => (c :: w) :: ws

/-- Join elements with single separators. -/
def joinSlash : List Str → Str
  | [] => []
  | [x] => x
  | x :: y :: rest => x ++ '/' :: joinSlash (y :: rest)

/-- The element `..`. -/
def dotdot : Str := ['.', '.']

/-- Whether the path begins with a separator. -/
def isRooted : Str → Bool
  | '/' :: _ => true
  | _ => false

/-- The elements of a path that `Clean` looks at: empty elements (repeated separators) and `.`
elements are dropped. -/
def elements (p : Str) : List Str :=
  (splitSlash p).filter (fun e => decide (e ≠ []) && decide (e ≠ ['.']))

/-- A path in lexical normal form: rooted or not, the number of leading `..` elements (zero for
a rooted path), and the remaining elements, the last one first. -/
structure LexPath where
  rooted : Bool
  ups : Nat
  stack : List Str
deriving DecidableEq, Repr

/-- One element of `Clean`: an ordinary element is appended; `..` removes the element before it
when there is one, is dropped at the root, and is kept in front of a relative path. -/
def cleanStep (l : LexPath) (e : Str) : LexPath :=
  if e = dotdot then
    match l.stack with
    | _ :: rest => { l with stack := rest }
    | [] => if l.rooted then l else { l with ups := l.ups + 1 }
  else { l with stack := e :: l.stack }

/-- An element as `Clean` keeps it: not empty, not `.`, without a separator. -/
def isElement (e : Str) : Prop := e ≠ [] ∧ e ≠ ['.'] ∧ '/' ∉ e

/-- Well-formed normal forms: a rooted path has no leading `..`, and the elements on the stack
are elements other than `..`. -/
def LexPath.normal (l : LexPath) : Prop :=
  (l.rooted = true → l.ups = 0) ∧ ∀ e ∈ l.stack, isElement e ∧ e ≠ dotdot

/-- Lexical normal form of a path string. -/
def lex (p : Str) : LexPath :=
  (elements p).foldl cleanStep ⟨isRooted p, 0, []⟩

/-- The elements of a normal form in path order. -/
def LexPath.elems (l : LexPath) : List Str :=
  List.replicate l.ups dotdot ++ l.stack.reverse

/-- The string of a normal form: `/` in front when rooted, `.` when empty. -/
def LexPath.render (l : LexPath) : Str :=
  if l.rooted then '/' :: joinSlash l.elems
  else if l.elems = [] then ['.'] else joinSlash l.elems

/-- Go `filepath.Clean`: the shortest path name equivalent to `p` by purely lexical processing. -/
def Clean (p : Str) : Str := (lex p).render

/-- Go `filepath.Join` of two elements: empty leading elements are ignored, the rest is joined
with separators and cleaned; all empty gives the empty string. -/
def Join (a b : Str) : Str :=
  if a ≠ [] then Clean (a ++ '/' :: b)
  else if b ≠ [] then Clean b
  else []

/-- Drop trailing separators. -/
def stripTrailingSlashes (p : Str) : Str :=
  (p.reverse.dropWhile (fun c => c = '/')).reverse

/-- Go `filepath.Base`: the last element of the path; `.` for the empty path, `/` for a path of
separators only. -/
def Base (p : Str) : Str :=
  if p = [] then ['.']
  else
    let q := stripTrailingSlashes p
    let last := (q.reverse.takeWhile (fun c => c ≠ '/')).reverse
    if last = [] then ['/'] else last

/-- Go `fmt.Sprintf("%d-%s-%s", id, name, version)`. -/
def Sprintf_d_s_s (id : Nat) (name version : Str) : Str :=
  Nat.toDigits 10 id ++ '-' :: (name ++ '-' :: version)

/-- The destination of a local-storage upload, as computed in `saveToLocalStorage`. -/
def localStorageDest (config : Config) (br : BuildResult) : Str :=
  Clean (Join config.LocalStoragePath
    (Sprintf_d_s_s br.resinfo.JobID br.resinfo.Name br.resinfo.Version))

/-- Whether `p` lies strictly beneath `root`, both taken in lexical normal form: same anchor,
and the elements of `root` are a proper initial segment of those of `p`. -/
def strictlyBeneath (root p : Str) : Bool :=
  let r := lex root
  let q := lex p
  decide (r.rooted = q.rooted) && decide (r.ups = q.ups) &&
    r.stack.reverse.isPrefixOf q.stack.reverse &&
    decide (r.stack.length < q.stack.length)

/-! ## Filesystem operations -/

/-- The absolute location a path string names: a relative path is taken from the working
directory, and `..` at the root stays at the root. -/
def resolve (cwd : List Str) (p : Str) : List Str :=
  ((elements p).foldl cleanStep
    ⟨true, 0, if isRooted p then [] else cwd.reverse⟩).stack.reverse

/-- Whether `k` is `dir` itself or lies beneath it. -/
def under (dir k : List Str) : Bool := dir.isPrefixOf k

/-- Whether removal and writing are denied at `k`. -/
def FileSystem.isLocked (fs : FileSystem) (k : List Str) : Bool :=
  fs.locked.any (fun l => l.isPrefixOf k)

/-- Go `os.Stat`, reduced to its error: nil when something exists at the location. -/
def Stat (fs : FileSystem) (loc : List Str) : Option GoError :=
  if fs.files.any (fun e => under loc e.1) then none
  else some ⟨"no such file or directory"⟩

/-- The guard of Go `os.RemoveAll`: the path is `.` or ends in `/.`. -/
def endsWithDot (path : Str) : Bool :=
  decide (path = ['.']) || decide (path.reverse.take 2 = ['.', '/'])

/-- Go `os.RemoveAll`: the empty path is no error and nothing is done; a path that ends in a
dot is refused with EINVAL and nothing is removed; otherwise the location and everything
beneath it is removed as far as it can be, and the error met, if any, is returned; a location
that does not exist is no error. -/
def RemoveAll (cwd : List Str) (fs : FileSystem) (path : Str) : Option GoError × FileSystem :=
  if path = [] then (none, fs)
  else if endsWithDot path then (some ⟨"invalid argument"⟩, fs)
  else
    (if fs.files.any (fun e => under (resolve cwd path) e.1 && fs.isLocked e.1)
       then some ⟨"permission denied"⟩ else none,
     { fs with files :=
        fs.files.filter (fun e => !(under (resolve cwd path) e.1) || fs.isLocked e.1) })

/-- Modelled from the spec: the helper `Copy(file, path)` of the models package is not among the
sources at hand. "Every artifact file is copied" to the destination: the regular file named by
`src` is read and written into the directory `dst` under its own name, replacing a file of that
name; it fails when `src` names no regular file or the target may not be written. -/
def Copy (cwd : List Str) (fs : FileSystem) (src dst : Str) : Option GoError × FileSystem :=
  let s := resolve cwd src
  match s.getLast?, fs.files.lookup s with
  | some name, some content =>
    let t := resolve cwd dst ++ [name]
    if fs.isLocked t then (some ⟨"permission denied"⟩, fs)
    else (none, { fs with files := fs.files.filter (fun e => decide (e.1 ≠ t)) ++ [(t, content)] })
  | _, _ => (some ⟨"no such file or directory"⟩, fs)

/-- Buffer depth of `make(chan bool, 1)`. -/
def chanDepth : Nat := 1

/-- A send `ch <- v` with nobody receiving: `none` when it blocks (nil channel, or buffer
full), otherwise the channel with the value buffered. -/
def chanSend (ch : Option (List Bool)) (v : Bool) : Option (Option (List Bool)) :=
  match ch with
  | none => none
  | some buf => if buf.length < chanDepth then some (some (buf ++ [v])) else none

/-- A receive that takes the pending token, if there is one. -/
def chanTake (ch : Option (List Bool)) : Option (List Bool) :=
  match ch with
  | some (_ :: rest) => some rest
  | c => c

/-! ## UploadJob -/

/-- Append a step to the trace. -/
def World.record (w : World) (e : Event) : World := { w with trace := w.trace ++ [e] }

/-- The assignment `uploadJob.State = s`. -/
def UploadJob.setState (job : UploadJob) (s : JobState) : UploadJob := { job with State := s }

/-- `NewUploadJob`: state Waiting, a fresh channel, then `db.Create`, which either fails or
assigns the primary key. -/
def NewUploadJob (dbCreate : Except GoError Nat) (uploadJob : UploadJob) :
    Except GoError UploadJob :=
  let uploadJob := { uploadJob with State := JobState.JobWaiting, cancelChan := some [] }
  match dbCreate with
  | .error err => .error err
  | .ok id => .ok { uploadJob with ID := id }

/-- `UploadJob.Init`. -/
def UploadJob.Init (uploadJob : UploadJob) : UploadJob :=
  if uploadJob.cancelChan = none then { uploadJob with cancelChan := some [] } else uploadJob

/-- The copy loop of `saveToLocalStorage`: stops at the first error. -/
def copyFiles (path : Str) : List Str → World → Option GoError × World
  | [], w => (none, w)
  | file :: rest, w =>
    let r := Copy w.cwd w.fs file path
    let w := { (w.record (.copy file path)) with fs := r.2 }
    match r.1 with
    | some err => (some err, w)
    | none => copyFiles path rest w

/-- The first block of `saveToLocalStorage`: when `os.Stat(path)` gives no error the old build
result is cleared with `os.RemoveAll(path)`, whose error is handed back. -/
def clearOldResult (path : Str) (w : World) : Option GoError × World :=
  if Stat w.fs (resolve w.cwd path) = none then
    let r := RemoveAll w.cwd w.fs path
    (r.1, { (w.record (.removeAll path)) with fs := r.2 })
  else (none, w)

/-- `UploadJob.saveToLocalStorage`. -/
def UploadJob.saveToLocalStorage (uploadJob : UploadJob) (buildResult : BuildResult)
    (config : Config) (w : World) : Outcome :=
  match (clearOldResult (localStorageDest config buildResult) w).1 with
  | some err =>
    ⟨uploadJob, some ⟨some err⟩, (clearOldResult (localStorageDest config buildResult) w).2⟩
  | none =>
    match (copyFiles (localStorageDest config buildResult) buildResult.resinfo.Files
        (clearOldResult (localStorageDest config buildResult) w).2).1 with
    | some err =>
      ⟨uploadJob, some ⟨some err⟩,
        (copyFiles (localStorageDest config buildResult) buildResult.resinfo.Files
          (clearOldResult (localStorageDest config buildResult) w).2).2⟩
    | none =>
      ⟨uploadJob.setState .JobDone, none,
        ((copyFiles (localStorageDest config buildResult) buildResult.resinfo.Files
          (clearOldResult (localStorageDest config buildResult) w).2).2).record
            (.setState .JobDone)⟩

/-- The attributes `uploadDmanager` attaches to every file. -/
def uploadAttributes (buildResult : BuildResult) (argParser : ArgParser) : FileAttributes :=
  let attributes : FileAttributes :=
    { Groups := [buildResult.resinfo.Name], Tags := [buildResult.resinfo.Version],
      Namespace := [] }
  if argParser.HasNamespace then
    { attributes with Namespace := argParser.GetDManagerData.Namespace }
  else
    { attributes with Groups := attributes.Groups ++ ["AURPackage".toList] }

/-- The upload request `uploadDmanager` creates for one file. -/
def uploadRequestFor (buildResult : BuildResult) (argParser : ArgParser) (token : Str)
    (file : Str) : UploadRequest :=
  { URL := argParser.GetDManagerData.Host, Username := argParser.GetDManagerData.Username,
    SessionToken := token, Name := Base file,
    Attributes := uploadAttributes buildResult argParser }

/-- The per-file loop of `uploadDmanager`, from position `i` of the file list: open, upload,
next; the first error sets Failed and returns. -/
def uploadFiles (env : Env) (buildResult : BuildResult) (argParser : ArgParser) (token : Str) :
    Nat → List Str → UploadJob → World → Outcome
  | _, [], uploadJob, w =>
    ⟨uploadJob.setState .JobDone, none, w.record (.setState .JobDone)⟩
  | i, file :: rest, uploadJob, w =>
    let uploadRequest := uploadRequestFor buildResult argParser token file
    let w := w.record (.osOpen file)
    match env.osOpen i file with
    | some err =>
      ⟨uploadJob.setState .JobFailed, some ⟨some err⟩, w.record (.setState .JobFailed)⟩
    | none =>
      let w := w.record (.uploadFile uploadRequest.Name)
      let out := env.uploadFile i uploadRequest
      let uploadJob :=
        if out.tokenTaken then { uploadJob with cancelChan := chanTake uploadJob.cancelChan }
        else uploadJob
      match out.err with
      | some err =>
        ⟨uploadJob.setState .JobFailed, some ⟨some err⟩, w.record (.setState .JobFailed)⟩
      | none =>
        uploadFiles env buildResult argParser token (i + 1) rest uploadJob
          { w with remote := w.remote ++ [uploadRequest] }

/-- `UploadJob.uploadDmanager`. -/
def UploadJob.uploadDmanager (env : Env) (uploadJob : UploadJob) (buildResult : BuildResult)
    (argParser : ArgParser) (w : World) : Outcome :=
  match env.base64Decode argParser.GetDManagerData.Token with
  | .error err =>
    ⟨uploadJob.setState .JobFailed, some ⟨some err⟩, w.record (.setState .JobFailed)⟩
  | .ok unencodedToken =>
    uploadFiles env buildResult argParser unencodedToken 0 buildResult.resinfo.Files uploadJob w

/-- `UploadJob.upload`. -/
def UploadJob.upload (env : Env) (uploadJob : UploadJob) (buildResult : BuildResult)
    (argParser : ArgParser) (config : Config) (w : World) : Outcome :=
  match uploadJob.Type_ with
  | .DataManagerUploadType => uploadJob.uploadDmanager env buildResult argParser w
  | .LocalStorage => uploadJob.saveToLocalStorage buildResult config w
  | .unknown _ =>
    ⟨uploadJob.setState .JobFailed, some ⟨some ErrNoVaildUploadMetodPassed⟩,
      w.record (.setState .JobFailed)⟩

/-- `UploadJob.Run`. -/
def UploadJob.Run (env : Env) (uploadJob : UploadJob) (buildResult : BuildResult)
    (argParser : ArgParser) (config : Config) (w : World) : Outcome :=
  let uploadJob := uploadJob.Init
  let uploadJob := uploadJob.setState .JobRunning
  let w := w.record (.setState .JobRunning)
  if uploadJob.Type_ = .DataManagerUploadType && !argParser.HasDataManagerArgs then
    ⟨uploadJob, some ⟨some ErrNoManagerDataAvailable⟩, w⟩
  else
    uploadJob.upload env buildResult argParser config w

/-- `UploadJob.cancel`; `none` when the send blocks. -/
def UploadJob.cancel (uploadJob : UploadJob) (w : World) : Option (UploadJob × World) :=
  if uploadJob.State = .JobRunning then
    match chanSend uploadJob.cancelChan true with
    | none => none
    | some ch =>
      some (({ uploadJob with cancelChan := ch }).setState .JobCancelled,
        (w.record (.chanSend true)).record (.setState .JobCancelled))
  else
    some (uploadJob.setState .JobCancelled, w.record (.setState .JobCancelled))

/-- `n` consecutive calls of `cancel`; `none` as soon as one blocks. -/
def cancelTimes : Nat → UploadJob → World → Option (UploadJob × World)
  | 0, uploadJob, w => some (uploadJob, w)
  | n + 1, uploadJob, w =>
    match uploadJob.cancel w with
    | none => none
    | some r => cancelTimes n r.1 r.2

/-- The state assignments recorded in a trace. -/
def stateWrites (t : List Event) : List JobState :=
  t.filterMap (fun e => match e with | .setState s => some s | _ => none)

/-- The number of cancellation tokens sent in a trace. -/
def tokensSent (t : List Event) : Nat :=
  t.countP (fun e => match e with | .chanSend _ => true | _ => false)

/-- The files an open was attempted on, in order. -/
def filesAttempted (t : List Event) : List Str :=
  t.filterMap (fun e => match e with | .osOpen f => some f | _ => none)

/-- The error of the file at position `i`, if it fails: the open error, else the upload error. -/
def fileError (env : Env) (buildResult : BuildResult) (argParser : ArgParser) (token : Str)
    (i : Nat) (file : Str) : Option GoError :=
  match env.osOpen i file with
  | some err => some err
  | none => (env.uploadFile i (uploadRequestFor buildResult argParser token file)).err

/-! ## JobService.GetOldJobs -/

/-- A row of the `jobs` table: primary key and the foreign keys the query joins on. -/
structure JobRow where
  ID : Nat
  BuildJobID : Nat
  UploadJobID : Nat
deriving DecidableEq, Repr

/-- The tables `GetOldJobs` reads: `jobs` in storage order, the `state` column of `build_jobs`
and of `upload_jobs` by primary key, and the error of the query, if the store fails. -/
structure Repository where
  jobs : List JobRow
  build_jobs : List (Nat × Nat)
  upload_jobs : List (Nat × Nat)
  queryError : Option GoError
deriving DecidableEq, Repr

/-- The condition `state != 3 AND state != 0` on a left-joined row; a missing row gives NULL,
which fails the condition. -/
def stateCondition : Option Nat → Bool
  | none => false
  | some state => decide (state ≠ 3) && decide (state ≠ 0)

/-- The two `Where` clauses of `GetOldJobs` over the two left joins. -/
def oldJobsWhere (db : Repository) (job : JobRow) : Bool :=
  stateCondition (db.build_jobs.lookup job.BuildJobID) &&
    stateCondition (db.upload_jobs.lookup job.UploadJobID)

/-- The clause `Order("jobs.id DESC")`. -/
def orderByIdDesc (rows : List JobRow) : List JobRow :=
  rows.insertionSort (fun a b => b.ID ≤ a.ID)

/-- The clause `Limit(limit)` of gorm: a LIMIT is written for a positive number only; zero or a
negative number (`-1` cancels the limit) leaves the result unlimited. -/
def gormLimit (limit : Int) (rows : List JobRow) : List JobRow :=
  if 0 < limit then rows.take limit.toNat else rows

/-- `JobService.GetOldJobs`; `jobs` holds the rows that are not soft-deleted, and `Preload` only
fills in the nested records of the rows found. -/
def GetOldJobs (db : Repository) (limit : Int) : Except GoError (List JobRow) :=
  match db.queryError with
  | some err => .error err
  | none => .ok (gormLimit limit (orderByIdDesc (db.jobs.filter (oldJobsWhere db))))

/-! ## Example inputs -/

/-- An environment in which every external call succeeds. -/
def envOk : Env :=
  { base64Decode := fun t => .ok t
    osOpen := fun _ _ => none
    uploadFile := fun _ _ => ⟨none, false⟩ }

/-- An environment in which the upload of the file at position 1 fails. -/
def envSecondFails : Env :=
  { base64Decode := fun t => .ok t
    osOpen := fun _ _ => none
    uploadFile := fun i _ => if i = 1 then ⟨some ⟨"connection reset"⟩, false⟩ else ⟨none, false⟩ }

/-- An empty world with working directory `/`. -/
def emptyWorld : World := { cwd := [], fs := ⟨[], []⟩, remote := [], trace := [] }

/-- A build result of three artifact files. -/
def threeFiles : BuildResult :=
  ⟨⟨7, "pkg".toList, "1.0".toList,
    ["/build/a.pkg".toList, "/build/b.pkg".toList, "/build/c.pkg".toList]⟩⟩

/-- Arguments without DataManager credentials. -/
def noCredentials : ArgParser := ⟨false, ⟨[], [], [], []⟩, false⟩

/-- Arguments with DataManager credentials. -/
def withCredentials : ArgParser :=
  ⟨true, ⟨"dG9rZW4=".toList, "https://dm.example".toList, "builder".toList, []⟩, false⟩

/-- A configuration storing under `/srv/storage`. -/
def storageConfig : Config := ⟨"/srv/storage".toList⟩

/-- A world with the three artifact files and an older result in the destination. -/
def storageWorld : World :=
  { cwd := []
    fs := ⟨[(["build".toList, "a.pkg".toList], "A".toList),
            (["build".toList, "b.pkg".toList], "B".toList),
            (["build".toList, "c.pkg".toList], "C".toList),
            (["srv".toList, "storage".toList, "7-pkg-1.0".toList, "old.pkg".toList],
              "O".toList)], []⟩
    remote := []
    trace := [] }

/-- A world in which the older result in the destination may not be removed. -/
def lockedWorld : World :=
  { storageWorld with fs := { storageWorld.fs with locked := [["srv".toList]] } }

/-- A repository of four jobs, one of them still waiting. -/
def exampleRepository : Repository :=
  { jobs := [⟨1, 1, 1⟩, ⟨2, 2, 2⟩, ⟨3, 3, 3⟩, ⟨4, 4, 4⟩]
    build_jobs := [(1, 4), (2, 4), (3, 0), (4, 2)]
    upload_jobs := [(1, 4), (2, 2), (3, 0), (4, 1)]
    queryError := none }

end Remotebuild

namespace Remotebuild

/-! ## Outcomes of the upload paths -/

theorem uploadFiles_outcome (env : Env) (br : BuildResult) (ap : ArgParser) (token : Str)
    (files : List Str) (i : Nat) (job : UploadJob) (w : World) :
    ((uploadFiles env br ap token i files job w).result = none ∧
        (uploadFiles env br ap token i files job w).job.State = .JobDone) ∨
      ∃ err, (uploadFiles env br ap token i files job w).result = some ⟨some err⟩ ∧
        (uploadFiles env br ap token i files job w).job.State = .JobFailed := by
  induction files generalizing i job w with
  | nil => left; simp [uploadFiles, UploadJob.setState]
  | cons file rest ih =>
    simp only [uploadFiles]
    cases hopen : env.osOpen i file with
    | some err => right; exact ⟨err, by simp [UploadJob.setState]⟩
    | none =>
      cases hup : (env.uploadFile i (uploadRequestFor br ap token file)).err with
      | some err => right; exact ⟨err, by simp [UploadJob.setState]⟩
      | none => exact ih _ _ _

theorem uploadDmanager_outcome (env : Env) (job : UploadJob) (br : BuildResult) (ap : ArgParser)
    (w : World) :
    ((job.uploadDmanager env br ap w).result = none ∧
        (job.uploadDmanager env br ap w).job.State = .JobDone) ∨
      ∃ err, (job.uploadDmanager env br ap w).result = some ⟨some err⟩ ∧
        (job.uploadDmanager env br ap w).job.State = .JobFailed := by
  unfold UploadJob.uploadDmanager
  cases hdec : env.base64Decode ap.GetDManagerData.Token with
  | error err => right; exact ⟨err, by simp [UploadJob.setState]⟩
  | ok token => exact uploadFiles_outcome env br ap token _ 0 job w

theorem saveToLocalStorage_outcome (job : UploadJob) (br : BuildResult) (config : Config)
    (w : World) :
    ((job.saveToLocalStorage br config w).result = none ∧
        (job.saveToLocalStorage br config w).job.State = .JobDone) ∨
      ∃ err, (job.saveToLocalStorage br config w).result = some ⟨some err⟩ ∧
        (job.saveToLocalStorage br config w).job = job := by
  unfold UploadJob.saveToLocalStorage
  split
  · next err _ => right; exact ⟨err, rfl, rfl⟩
  · split
    · next err _ => right; exact ⟨err, rfl, rfl⟩
    · left; simp [UploadJob.setState]

theorem Init_Type (job : UploadJob) : job.Init.Type_ = job.Type_ := by
  unfold UploadJob.Init; split <;> rfl

theorem Run_outcome (env : Env) (job : UploadJob) (br : BuildResult) (ap : ArgParser)
    (config : Config) (w : World) :
    ((job.Run env br ap config w).result = none ∧
        (job.Run env br ap config w).job.State = .JobDone) ∨
      ∃ err, (job.Run env br ap config w).result = some ⟨some err⟩ ∧
        ((job.Run env br ap config w).job.State = .JobFailed ∨
          (job.Run env br ap config w).job.State = .JobRunning) := by
  unfold UploadJob.Run
  simp only []
  split
  · right; exact ⟨_, rfl, Or.inr rfl⟩
  · unfold UploadJob.upload
    split
    · rcases uploadDmanager_outcome env (job.Init.setState .JobRunning) br ap
        (w.record (.setState .JobRunning)) with h | ⟨err, h1, h2⟩
      · exact Or.inl h
      · exact Or.inr ⟨err, h1, Or.inl h2⟩
    · rcases saveToLocalStorage_outcome (job.Init.setState .JobRunning) br config
        (w.record (.setState .JobRunning)) with h | ⟨err, h1, h2⟩
      · exact Or.inl h
      · refine Or.inr ⟨err, h1, Or.inr ?_⟩
        rw [h2]; rfl
    · right; exact ⟨_, rfl, Or.inl rfl⟩

/-! ## Claims on `Run` -/

/-- C1 (the code at the failing inputs): `Run` on a DataManager job without credentials returns
`ErrNoManagerDataAvailable` and leaves the state Running; `Run` on a local-storage job whose old
result cannot be removed, or whose artifact cannot be copied, returns the error and leaves the
state Running as well. None of the three paths assigns Failed. -/
theorem Run_error_leaves_Running :
    ((UploadJob.Run envOk ⟨1, .JobWaiting, .DataManagerUploadType, none⟩ threeFiles noCredentials
        storageConfig emptyWorld).result = some ⟨some ErrNoManagerDataAvailable⟩ ∧
      (UploadJob.Run envOk ⟨1, .JobWaiting, .DataManagerUploadType, none⟩ threeFiles noCredentials
        storageConfig emptyWorld).job.State = .JobRunning) ∧
    ((UploadJob.Run envOk ⟨1, .JobWaiting, .LocalStorage, none⟩ threeFiles noCredentials
        storageConfig lockedWorld).result = some ⟨some ⟨"permission denied"⟩⟩ ∧
      (UploadJob.Run envOk ⟨1, .JobWaiting, .LocalStorage, none⟩ threeFiles noCredentials
        storageConfig lockedWorld).job.State = .JobRunning) ∧
    ((UploadJob.Run envOk ⟨1, .JobWaiting, .LocalStorage, none⟩ threeFiles noCredentials
        storageConfig emptyWorld).result = some ⟨some ⟨"no such file or directory"⟩⟩ ∧
      (UploadJob.Run envOk ⟨1, .JobWaiting, .LocalStorage, none⟩ threeFiles noCredentials
        storageConfig emptyWorld).job.State = .JobRunning) := by
  decide

theorem Run_unknown_outcome (env : Env) (job : UploadJob) (br : BuildResult) (ap : ArgParser)
    (config : Config) (w : World)
    (hdm : job.Type_ ≠ .DataManagerUploadType) (hls : job.Type_ ≠ .LocalStorage) :
    (job.Run env br ap config w).job.State = .JobFailed ∧
      (job.Run env br ap config w).result = some ⟨some ErrNoVaildUploadMetodPassed⟩ := by
  unfold UploadJob.Run
  simp only []
  have ht : (job.Init.setState .JobRunning).Type_ = job.Type_ := Init_Type job
  split
  · next h =>
    simp only [Bool.and_eq_true, decide_eq_true_eq] at h
    exact absurd (ht ▸ h.1) hdm
  · unfold UploadJob.upload
    split
    · next h => exact absurd (ht ▸ h) hdm
    · next h => exact absurd (ht ▸ h) hls
    · exact ⟨rfl, rfl⟩

/-- C2: for an upload type that is neither DataManagerUploadType nor LocalStorage, `Run` ends
in state Failed and returns a result whose error is `ErrNoVaildUploadMetodPassed`; in
particular the result is not nil and the state is not Done. -/
theorem Run_unknown_type (env : Env) (job : UploadJob) (br : BuildResult) (ap : ArgParser)
    (config : Config) (w : World)
    (hdm : job.Type_ ≠ .DataManagerUploadType) (hls : job.Type_ ≠ .LocalStorage) :
    (job.Run env br ap config w).job.State = .JobFailed ∧
      (job.Run env br ap config w).result = some ⟨some ErrNoVaildUploadMetodPassed⟩ ∧
      (job.Run env br ap config w).result ≠ none ∧
      (job.Run env br ap config w).job.State ≠ .JobDone := by
  have key := Run_unknown_outcome env job br ap config w hdm hls
  refine ⟨key.1, key.2, ?_, ?_⟩
  · rw [key.2]; simp
  · rw [key.1]; simp

theorem Run_unknown_type_witness :
    (UploadJob.Run envOk ⟨1, .JobWaiting, .unknown 0, none⟩ threeFiles noCredentials storageConfig
        emptyWorld).job.State = .JobFailed ∧
      (UploadJob.Run envOk ⟨1, .JobWaiting, .unknown 0, none⟩ threeFiles noCredentials
        storageConfig emptyWorld).result = some ⟨some ErrNoVaildUploadMetodPassed⟩ ∧
      (UploadJob.Run envOk ⟨1, .JobWaiting, .unknown 0, none⟩ threeFiles noCredentials
        storageConfig emptyWorld).result ≠ none ∧
      (UploadJob.Run envOk ⟨1, .JobWaiting, .unknown 0, none⟩ threeFiles noCredentials
        storageConfig emptyWorld).job.State ≠ .JobDone :=
  Run_unknown_type envOk ⟨1, .JobWaiting, .unknown 0, none⟩ threeFiles noCredentials storageConfig
    emptyWorld (by decide) (by decide)

/-- C9: `Run` returns the nil result exactly when the state after `Run` is Done, and every
result it does return carries a non-nil error. -/
theorem Run_nil_iff_Done (env : Env) (job : UploadJob) (br : BuildResult) (ap : ArgParser)
    (config : Config) (w : World) :
    ((job.Run env br ap config w).result = none ↔
        (job.Run env br ap config w).job.State = .JobDone) ∧
      ∀ r, (job.Run env br ap config w).result = some r → r.Error ≠ none := by
  rcases Run_outcome env job br ap config w with ⟨h1, h2⟩ | ⟨err, h1, h2⟩
  · refine ⟨⟨fun _ => h2, fun _ => h1⟩, ?_⟩
    intro r hr; rw [h1] at hr; cases hr
  · refine ⟨⟨fun h => ?_, fun h => ?_⟩, ?_⟩
    · rw [h1] at h; cases h
    · rcases h2 with h2 | h2 <;> rw [h2] at h <;> cases h
    · intro r hr; rw [h1] at hr; cases hr; simp

end Remotebuild

namespace Remotebuild

/-! ## Cancellation -/

theorem cancel_not_Running (job : UploadJob) (w : World) (h : job.State ≠ .JobRunning) :
    job.cancel w = some (job.setState .JobCancelled, w.record (.setState .JobCancelled)) := by
  unfold UploadJob.cancel
  rw [if_neg h]

theorem cancel_Running_empty (job : UploadJob) (w : World) (h : job.State = .JobRunning)
    (hc : job.cancelChan = some []) :
    job.cancel w = some (({ job with cancelChan := some [true] }).setState .JobCancelled,
      (w.record (.chanSend true)).record (.setState .JobCancelled)) := by
  unfold UploadJob.cancel
  rw [if_pos h, hc]
  rfl

theorem cancelTimes_Cancelled (n : Nat) (job : UploadJob) (w : World)
    (h : job.State = .JobCancelled) :
    cancelTimes n job w =
      some (job, { w with trace := w.trace ++ List.replicate n (.setState .JobCancelled) }) := by
  induction n generalizing w with
  | zero => simp [cancelTimes]
  | succ n ih =>
    have hne : job.State ≠ .JobRunning := by rw [h]; decide
    have hj : job.setState .JobCancelled = job := by
      cases job; simp only [UploadJob.setState] at *; simp [h]
    simp only [cancelTimes, cancel_not_Running job w hne, hj]
    rw [ih]
    simp [World.record, List.replicate_succ]

theorem cancelTimes_succ (n : Nat) (job : UploadJob) (w : World)
    (hc : job.cancelChan = some []) :
    cancelTimes (n + 1) job w =
      some ({ job with State := .JobCancelled,
                       cancelChan := some (if job.State = .JobRunning then [true] else []) },
        { w with trace := w.trace ++
            (if job.State = .JobRunning then [Event.chanSend true] else []) ++
            List.replicate (n + 1) (.setState .JobCancelled) }) := by
  by_cases h : job.State = .JobRunning
  · simp only [cancelTimes, cancel_Running_empty job w h hc]
    rw [cancelTimes_Cancelled _ _ _ rfl]
    simp [h, World.record, UploadJob.setState, List.replicate_succ]
  · simp only [cancelTimes, cancel_not_Running job w h]
    rw [cancelTimes_Cancelled _ _ _ rfl]
    simp [h, World.record, UploadJob.setState, List.replicate_succ, hc]

theorem stateWrites_append (a b : List Event) :
    stateWrites (a ++ b) = stateWrites a ++ stateWrites b := by
  simp [stateWrites]

theorem tokensSent_append (a b : List Event) :
    tokensSent (a ++ b) = tokensSent a + tokensSent b := by
  simp [tokensSent]

theorem stateWrites_replicate (n : Nat) (s : JobState) :
    stateWrites (List.replicate n (.setState s)) = List.replicate n s := by
  induction n with
  | zero => rfl
  | succ n ih => simp [List.replicate_succ, stateWrites]

theorem tokensSent_replicate (n : Nat) (s : JobState) :
    tokensSent (List.replicate n (.setState s)) = 0 := by
  induction n with
  | zero => rfl
  | succ n ih => simp [List.replicate_succ, tokensSent] at ih ⊢

/-- C3: on a job with an initialised, empty cancellation channel, `n ≥ 1` consecutive calls of
`cancel` all complete; afterwards the state is Cancelled whatever it was before; the number of
tokens sent is one if the job was Running before the first call and zero otherwise, and the
channel holds exactly those tokens; the only state assigned along the way is Cancelled (a
Waiting job never passes through Running); and one more call leaves the job as it is. -/
theorem cancel_repeated (n : Nat) (job : UploadJob) (w : World)
    (hc : job.cancelChan = some []) (hn : 1 ≤ n) :
    ∃ job1 w1, cancelTimes n job w = some (job1, w1) ∧
      job1.State = .JobCancelled ∧
      tokensSent w1.trace = tokensSent w.trace + (if job.State = .JobRunning then 1 else 0) ∧
      job1.cancelChan = some (if job.State = .JobRunning then [true] else []) ∧
      stateWrites w1.trace = stateWrites w.trace ++ List.replicate n .JobCancelled ∧
      (∀ s ∈ (stateWrites w1.trace).drop (stateWrites w.trace).length, s ≠ .JobRunning) ∧
      (job1.cancel w1).map Prod.fst = some job1 ∧
      (cancelTimes (n + 1) job w).map Prod.fst = some job1 := by
  obtain ⟨m, rfl⟩ : ∃ m, n = m + 1 := ⟨n - 1, by omega⟩
  have hwrites : stateWrites (w.trace ++
        (if job.State = .JobRunning then [Event.chanSend true] else []) ++
        List.replicate (m + 1) (.setState .JobCancelled)) =
      stateWrites w.trace ++ List.replicate (m + 1) .JobCancelled := by
    simp only [stateWrites_append, stateWrites_replicate]
    split <;> simp [stateWrites]
  refine ⟨_, _, cancelTimes_succ m job w hc, rfl, ?_, rfl, hwrites, ?_, ?_, ?_⟩
  · simp only [tokensSent_append, tokensSent_replicate]
    split <;> simp [tokensSent]
  · intro s hs
    simp only [] at hs
    rw [hwrites, List.drop_left] at hs
    rw [(List.mem_replicate.mp hs).2]
    decide
  · rw [cancel_not_Running _ _ (by simp)]
    simp [UploadJob.setState]
  · rw [cancelTimes_succ (m + 1) job w hc]
    simp

theorem cancel_repeated_witness :
    ∃ job1 w1, cancelTimes 3 ⟨1, .JobRunning, .LocalStorage, some []⟩ emptyWorld
        = some (job1, w1) ∧
      job1.State = .JobCancelled ∧
      tokensSent w1.trace = tokensSent emptyWorld.trace +
        (if (⟨1, .JobRunning, .LocalStorage, some []⟩ : UploadJob).State = .JobRunning
          then 1 else 0) ∧
      job1.cancelChan =
        some (if (⟨1, .JobRunning, .LocalStorage, some []⟩ : UploadJob).State = .JobRunning
          then [true] else []) ∧
      stateWrites w1.trace = stateWrites emptyWorld.trace ++ List.replicate 3 .JobCancelled ∧
      (∀ s ∈ (stateWrites w1.trace).drop (stateWrites emptyWorld.trace).length,
        s ≠ .JobRunning) ∧
      (job1.cancel w1).map Prod.fst = some job1 ∧
      (cancelTimes (3 + 1) ⟨1, .JobRunning, .LocalStorage, some []⟩ emptyWorld).map Prod.fst
        = some job1 :=
  cancel_repeated 3 ⟨1, .JobRunning, .LocalStorage, some []⟩ emptyWorld rfl (by decide)

/-- C6 (counterexample): a job made by `NewUploadJob`, run without credentials (which leaves it
Running), cancelled (the token is buffered, nobody receives it) and run again is Running with
the token still in the channel; the next `cancel` blocks on the full channel. A Running job
whose channel was never initialised blocks as well. -/
theorem cancel_blocks :
    NewUploadJob (.ok 1) ⟨0, .JobWaiting, .DataManagerUploadType, none⟩ =
        .ok ⟨1, .JobWaiting, .DataManagerUploadType, some []⟩ ∧
      (UploadJob.Run envOk ⟨1, .JobWaiting, .DataManagerUploadType, some []⟩ threeFiles
        noCredentials storageConfig emptyWorld).job =
        ⟨1, .JobRunning, .DataManagerUploadType, some []⟩ ∧
      (UploadJob.cancel ⟨1, .JobRunning, .DataManagerUploadType, some []⟩ emptyWorld).map
        Prod.fst = some ⟨1, .JobCancelled, .DataManagerUploadType, some [true]⟩ ∧
      (UploadJob.Run envOk ⟨1, .JobCancelled, .DataManagerUploadType, some [true]⟩ threeFiles
        noCredentials storageConfig emptyWorld).job =
        ⟨1, .JobRunning, .DataManagerUploadType, some [true]⟩ ∧
      UploadJob.cancel ⟨1, .JobRunning, .DataManagerUploadType, some [true]⟩ emptyWorld = none ∧
      UploadJob.cancel ⟨1, .JobRunning, .DataManagerUploadType, none⟩ emptyWorld = none := by
  refine ⟨rfl, ?_, ?_, ?_, ?_, ?_⟩ <;> decide

/-- C6 (amended): `cancel` completes for every job that is not Running, whatever its channel,
and for every Running job whose channel is initialised and empty. -/
theorem cancel_completes (job : UploadJob) (w : World)
    (h : job.State ≠ .JobRunning ∨ job.cancelChan = some []) :
    (job.cancel w).isSome = true := by
  by_cases hr : job.State = .JobRunning
  · rcases h with h | h
    · exact absurd hr h
    · rw [cancel_Running_empty job w hr h]; rfl
  · rw [cancel_not_Running job w hr]; rfl

theorem cancel_completes_witness :
    (UploadJob.cancel ⟨1, .JobRunning, .DataManagerUploadType, some []⟩ emptyWorld).isSome
      = true :=
  cancel_completes ⟨1, .JobRunning, .DataManagerUploadType, some []⟩ emptyWorld (Or.inr rfl)

/-! ## Terminal states -/

end Remotebuild

namespace Remotebuild

/-! ## Remote upload: the first failing file -/

theorem filesAttempted_append (a b : List Event) :
    filesAttempted (a ++ b) = filesAttempted a ++ filesAttempted b := by
  simp [filesAttempted]

theorem fileError_none (env : Env) (br : BuildResult) (ap : ArgParser) (token : Str) (i : Nat)
    (file : Str) (h : fileError env br ap token i file = none) :
    env.osOpen i file = none ∧
      (env.uploadFile i (uploadRequestFor br ap token file)).err = none := by
  unfold fileError at h
  cases ho : env.osOpen i file with
  | some err => rw [ho] at h; cases h
  | none => rw [ho] at h; exact ⟨rfl, h⟩

theorem uploadFiles_step (env : Env) (br : BuildResult) (ap : ArgParser) (token : Str) (i : Nat)
    (file : Str) (rest : List Str) (job : UploadJob) (w : World)
    (h : fileError env br ap token i file = none) :
    ∃ job1 w1, uploadFiles env br ap token i (file :: rest) job w =
        uploadFiles env br ap token (i + 1) rest job1 w1 ∧
      filesAttempted w1.trace = filesAttempted w.trace ++ [file] ∧
      w1.remote = w.remote ++ [uploadRequestFor br ap token file] := by
  obtain ⟨ho, hu⟩ := fileError_none env br ap token i file h
  refine ⟨if (env.uploadFile i (uploadRequestFor br ap token file)).tokenTaken = true then
      { job with cancelChan := chanTake job.cancelChan } else job,
    { ((w.record (.osOpen file)).record
        (.uploadFile (uploadRequestFor br ap token file).Name)) with
      remote := w.remote ++ [uploadRequestFor br ap token file] }, ?_, ?_, ?_⟩
  · simp only [uploadFiles, ho, hu]
    rfl
  · simp [World.record, filesAttempted]
  · simp [World.record]

theorem uploadFiles_fails_at (env : Env) (br : BuildResult) (ap : ArgParser) (token : Str)
    (files : List Str) (i : Nat) (job : UploadJob) (w : World) (k : Nat) (f : Str)
    (err : GoError) (hf : files[k]? = some f)
    (herr : fileError env br ap token (i + k) f = some err)
    (hbefore : ∀ j g, j < k → files[j]? = some g → fileError env br ap token (i + j) g = none) :
    filesAttempted (uploadFiles env br ap token i files job w).world.trace =
        filesAttempted w.trace ++ files.take (k + 1) ∧
      (uploadFiles env br ap token i files job w).job.State = .JobFailed ∧
      (uploadFiles env br ap token i files job w).result = some ⟨some err⟩ ∧
      (uploadFiles env br ap token i files job w).world.remote =
        w.remote ++ (files.take k).map (uploadRequestFor br ap token) := by
  induction files generalizing i job w k with
  | nil => simp at hf
  | cons file rest ih =>
    cases k with
    | zero =>
      simp only [List.getElem?_cons_zero, Option.some.injEq] at hf
      subst hf
      simp only [Nat.add_zero] at herr
      unfold fileError at herr
      simp only [uploadFiles]
      cases ho : env.osOpen i file with
      | some e =>
        rw [ho] at herr
        cases herr
        simp [World.record, filesAttempted, UploadJob.setState]
      | none =>
        rw [ho] at herr
        simp only [] at herr
        rw [herr]
        simp [World.record, filesAttempted, UploadJob.setState]
    | succ k =>
      have h0 : fileError env br ap token i file = none := by
        have := hbefore 0 file (Nat.succ_pos k) (by simp)
        simpa using this
      obtain ⟨job1, w1, hstep, hatt, hrem⟩ := uploadFiles_step env br ap token i file rest job w h0
      have hf1 : rest[k]? = some f := by simpa using hf
      have herr1 : fileError env br ap token (i + 1 + k) f = some err := by
        rw [Nat.add_assoc, Nat.add_comm 1 k]; exact herr
      have hbefore1 : ∀ j g, j < k → rest[j]? = some g →
          fileError env br ap token (i + 1 + j) g = none := by
        intro j g hj hg
        have := hbefore (j + 1) g (Nat.succ_lt_succ hj) (by simpa using hg)
        rw [Nat.add_assoc, Nat.add_comm 1 j]; exact this
      obtain ⟨a1, a2, a3, a4⟩ := ih (i + 1) job1 w1 k hf1 herr1 hbefore1
      rw [hstep]
      refine ⟨?_, a2, a3, ?_⟩
      · rw [a1, hatt]; simp
      · rw [a4, hrem]; simp

theorem uploadFiles_all_succeed (env : Env) (br : BuildResult) (ap : ArgParser) (token : Str)
    (files : List Str) (i : Nat) (job : UploadJob) (w : World)
    (hall : ∀ j g, files[j]? = some g → fileError env br ap token (i + j) g = none) :
    filesAttempted (uploadFiles env br ap token i files job w).world.trace =
        filesAttempted w.trace ++ files ∧
      (uploadFiles env br ap token i files job w).job.State = .JobDone ∧
      (uploadFiles env br ap token i files job w).result = none ∧
      (uploadFiles env br ap token i files job w).world.remote =
        w.remote ++ files.map (uploadRequestFor br ap token) := by
  induction files generalizing i job w with
  | nil => simp [uploadFiles, World.record, filesAttempted, UploadJob.setState]
  | cons file rest ih =>
    have h0 : fileError env br ap token i file = none := by
      have := hall 0 file (by simp)
      simpa using this
    obtain ⟨job1, w1, hstep, hatt, hrem⟩ := uploadFiles_step env br ap token i file rest job w h0
    have hall1 : ∀ j g, rest[j]? = some g →
        fileError env br ap token (i + 1 + j) g = none := by
      intro j g hg
      have := hall (j + 1) g (by simpa using hg)
      rw [Nat.add_assoc, Nat.add_comm 1 j]; exact this
    obtain ⟨a1, a2, a3, a4⟩ := ih (i + 1) job1 w1 hall1
    rw [hstep]
    refine ⟨?_, a2, a3, ?_⟩
    · rw [a1, hatt]; simp
    · rw [a4, hrem]; simp

/-- C4: the remote upload with a decodable token takes the files in list order. If the file at
position `k` is the first that fails (its open or its upload returns an error, and no file
before it does), the files an open was attempted on are exactly those up to and including `k`,
the final state is Failed, the returned error is the error of file `k`, and the server holds,
after what it held before, the uploads of the files before `k`. If no file fails, every file
is attempted, the state is Done, the result is nil and the server holds every upload. -/
theorem uploadDmanager_first_failure (env : Env) (job : UploadJob) (br : BuildResult)
    (ap : ArgParser) (w : World) (token : Str)
    (hdec : env.base64Decode ap.GetDManagerData.Token = .ok token) :
    (∀ k f err, br.resinfo.Files[k]? = some f →
        fileError env br ap token k f = some err →
        (∀ j g, j < k → br.resinfo.Files[j]? = some g →
          fileError env br ap token j g = none) →
        filesAttempted (job.uploadDmanager env br ap w).world.trace =
            filesAttempted w.trace ++ br.resinfo.Files.take (k + 1) ∧
          (job.uploadDmanager env br ap w).job.State = .JobFailed ∧
          (job.uploadDmanager env br ap w).result = some ⟨some err⟩ ∧
          (job.uploadDmanager env br ap w).world.remote =
            w.remote ++ (br.resinfo.Files.take k).map (uploadRequestFor br ap token)) ∧
      ((∀ j g, br.resinfo.Files[j]? = some g → fileError env br ap token j g = none) →
        filesAttempted (job.uploadDmanager env br ap w).world.trace =
            filesAttempted w.trace ++ br.resinfo.Files ∧
          (job.uploadDmanager env br ap w).job.State = .JobDone ∧
          (job.uploadDmanager env br ap w).result = none ∧
          (job.uploadDmanager env br ap w).world.remote =
            w.remote ++ br.resinfo.Files.map (uploadRequestFor br ap token)) := by
  have hrun : job.uploadDmanager env br ap w =
      uploadFiles env br ap token 0 br.resinfo.Files job w := by
    unfold UploadJob.uploadDmanager
    rw [hdec]
  rw [hrun]
  constructor
  · intro k f err hf herr hbefore
    exact uploadFiles_fails_at env br ap token br.resinfo.Files 0 job w k f err hf
      (by rw [Nat.zero_add]; exact herr)
      (fun j g hj hg => by rw [Nat.zero_add]; exact hbefore j g hj hg)
  · intro hall
    exact uploadFiles_all_succeed env br ap token br.resinfo.Files 0 job w
      (fun j g hg => by rw [Nat.zero_add]; exact hall j g hg)

theorem uploadDmanager_first_failure_witness :
    filesAttempted (UploadJob.uploadDmanager envSecondFails
          ⟨1, .JobRunning, .DataManagerUploadType, some []⟩ threeFiles withCredentials
          emptyWorld).world.trace =
        filesAttempted emptyWorld.trace ++ threeFiles.resinfo.Files.take (1 + 1) ∧
      (UploadJob.uploadDmanager envSecondFails
          ⟨1, .JobRunning, .DataManagerUploadType, some []⟩ threeFiles withCredentials
          emptyWorld).job.State = .JobFailed ∧
      (UploadJob.uploadDmanager envSecondFails
          ⟨1, .JobRunning, .DataManagerUploadType, some []⟩ threeFiles withCredentials
          emptyWorld).result = some ⟨some ⟨"connection reset"⟩⟩ ∧
      (UploadJob.uploadDmanager envSecondFails
          ⟨1, .JobRunning, .DataManagerUploadType, some []⟩ threeFiles withCredentials
          emptyWorld).world.remote =
        emptyWorld.remote ++ (threeFiles.resinfo.Files.take 1).map
          (uploadRequestFor threeFiles withCredentials withCredentials.GetDManagerData.Token) :=
  (uploadDmanager_first_failure envSecondFails ⟨1, .JobRunning, .DataManagerUploadType, some []⟩
    threeFiles withCredentials emptyWorld withCredentials.GetDManagerData.Token rfl).1
    1 "/build/b.pkg".toList ⟨"connection reset"⟩ (by decide) (by decide)
    (fun j g hj hg => by
      obtain rfl : j = 0 := by omega
      obtain rfl : "/build/a.pkg".toList = g := by simpa [threeFiles] using hg
      decide)

end Remotebuild

namespace Remotebuild

/-! ## GetOldJobs -/

theorem orderByIdDesc_sorted (rows : List JobRow) :
    ((orderByIdDesc rows).map JobRow.ID).Sorted (· ≥ ·) := by
  haveI : IsTotal JobRow (fun a b => b.ID ≤ a.ID) := ⟨fun a b => Nat.le_total b.ID a.ID⟩
  haveI : IsTrans JobRow (fun a b => b.ID ≤ a.ID) := ⟨fun _ _ _ h1 h2 => Nat.le_trans h2 h1⟩
  have h := List.sorted_insertionSort (fun a b : JobRow => b.ID ≤ a.ID) rows
  unfold orderByIdDesc
  exact List.pairwise_map.mpr h

theorem orderByIdDesc_nodup (rows : List JobRow) (h : (rows.map JobRow.ID).Nodup) :
    ((orderByIdDesc rows).map JobRow.ID).Nodup := by
  unfold orderByIdDesc
  exact ((List.perm_insertionSort _ rows).map JobRow.ID).nodup_iff.mpr h

theorem gormLimit_sublist (limit : Int) (rows : List JobRow) :
    (gormLimit limit rows).Sublist rows := by
  unfold gormLimit
  split
  · exact List.take_sublist _ _
  · exact List.Sublist.refl _

/-- C8 (counterexample): with limit `-1` the query is not limited: on a repository of four
jobs, three of which pass the state conditions, `GetOldJobs` succeeds and returns three jobs,
which is more than the limit. -/
theorem GetOldJobs_negative_limit :
    GetOldJobs exampleRepository (-1) = .ok [⟨4, 4, 4⟩, ⟨2, 2, 2⟩, ⟨1, 1, 1⟩] ∧
      ¬ (((([⟨4, 4, 4⟩, ⟨2, 2, 2⟩, ⟨1, 1, 1⟩] : List JobRow).length : Nat) : Int) ≤ -1) :=
  ⟨rfl, by decide⟩

/-- C8 (amended): for every positive limit and every repository whose job ids are unique (the
primary key), a successful `GetOldJobs limit` returns at most `limit` jobs, in strictly
descending order of job id. -/
theorem GetOldJobs_limit_order (db : Repository) (limit : Int) (jobs : List JobRow)
    (hpos : 0 < limit) (hkey : (db.jobs.map JobRow.ID).Nodup)
    (hok : GetOldJobs db limit = .ok jobs) :
    (jobs.length : Int) ≤ limit ∧ (jobs.map JobRow.ID).Sorted (· > ·) := by
  unfold GetOldJobs at hok
  cases hq : db.queryError with
  | some err => rw [hq] at hok; cases hok
  | none =>
    rw [hq] at hok
    simp only [Except.ok.injEq] at hok
    subst hok
    constructor
    · unfold gormLimit
      rw [if_pos hpos, List.length_take]
      have h1 : ((min limit.toNat (orderByIdDesc (db.jobs.filter (oldJobsWhere db))).length
          : Nat) : Int) ≤ (limit.toNat : Int) := by
        exact_mod_cast Nat.min_le_left _ _
      rw [Int.toNat_of_nonneg (le_of_lt hpos)] at h1
      exact h1
    · have hsub := (gormLimit_sublist limit
        (orderByIdDesc (db.jobs.filter (oldJobsWhere db)))).map JobRow.ID
      have hnd : ((db.jobs.filter (oldJobsWhere db)).map JobRow.ID).Nodup :=
        hkey.sublist ((List.filter_sublist db.jobs).map JobRow.ID)
      have hsorted := (orderByIdDesc_sorted (db.jobs.filter (oldJobsWhere db))).sublist hsub
      have hnodup := (orderByIdDesc_nodup _ hnd).sublist hsub
      exact List.Sorted.gt_of_ge hsorted hnodup

theorem GetOldJobs_limit_order_witness :
    (([⟨4, 4, 4⟩, ⟨2, 2, 2⟩] : List JobRow).length : Int) ≤ 2 ∧
      (([⟨4, 4, 4⟩, ⟨2, 2, 2⟩] : List JobRow).map JobRow.ID).Sorted (· > ·) :=
  GetOldJobs_limit_order exampleRepository 2 [⟨4, 4, 4⟩, ⟨2, 2, 2⟩] (by decide) (by decide) rfl

end Remotebuild

namespace Remotebuild

/-! ## Lexical paths -/

theorem splitSlash_ne_nil (p : Str) : splitSlash p ≠ [] := by
  induction p with
  | nil => simp [splitSlash]
  | cons c cs ih =>
    unfold splitSlash
    split
    · simp
    · split <;> simp

theorem splitSlash_append (a b : Str) :
    splitSlash (a ++ '/' :: b) = splitSlash a ++ splitSlash b := by
  induction a with
  | nil => simp [splitSlash]
  | cons c cs ih =>
    by_cases hc : c = '/'
    · simp [splitSlash, hc, ih]
    · have h1 : splitSlash (c :: cs ++ '/' :: b) =
          match splitSlash (cs ++ '/' :: b) with
          | [] => [[c]]
          | w :: ws => (c :: w) :: ws := by
        simp [splitSlash, hc]
      have h2 : splitSlash (c :: cs) =
          match splitSlash cs with
          | [] => [[c]]
          | w :: ws => (c :: w) :: ws := by
        simp [splitSlash, hc]
      rw [h1, h2, ih]
      cases hs : splitSlash cs with
      | nil => exact absurd hs (splitSlash_ne_nil cs)
      | cons w ws => simp

theorem splitSlash_no_slash (p : Str) : ∀ e ∈ splitSlash p, '/' ∉ e := by
  induction p with
  | nil => simp [splitSlash]
  | cons c cs ih =>
    by_cases hc : c = '/'
    · simp only [splitSlash, hc, if_true, List.mem_cons]
      rintro e (rfl | he)
      · simp
      · exact ih e he
    · have h2 : splitSlash (c :: cs) =
          match splitSlash cs with
          | [] => [[c]]
          | w :: ws => (c :: w) :: ws := by
        simp [splitSlash, hc]
      rw [h2]
      cases hs : splitSlash cs with
      | nil => exact absurd hs (splitSlash_ne_nil cs)
      | cons w ws =>
        rw [hs] at ih
        simp only [List.mem_cons]
        rintro e (rfl | he)
        · have := ih w (List.mem_cons_self _ _)
          simp only [List.mem_cons, not_or]
          exact ⟨fun h => hc h.symm, this⟩
        · exact ih e (List.mem_cons_of_mem _ he)

theorem splitSlash_plain (x : Str) (h : '/' ∉ x) : splitSlash x = [x] := by
  induction x with
  | nil => rfl
  | cons c cs ih =>
    simp only [List.mem_cons, not_or] at h
    have hc : c ≠ '/' := fun e => h.1 e.symm
    simp [splitSlash, hc, ih h.2]

theorem splitSlash_joinSlash (xs : List Str) (hne : xs ≠ []) (h : ∀ x ∈ xs, '/' ∉ x) :
    splitSlash (joinSlash xs) = xs := by
  induction xs with
  | nil => exact absurd rfl hne
  | cons x rest ih =>
    cases rest with
    | nil => simpa [joinSlash] using splitSlash_plain x (h x (List.mem_cons_self _ _))
    | cons y rest =>
      simp only [joinSlash]
      rw [splitSlash_append, splitSlash_plain x (h x (List.mem_cons_self _ _)),
        ih (by simp) (fun z hz => h z (List.mem_cons_of_mem _ hz))]
      rfl

theorem elements_append (a b : Str) :
    elements (a ++ '/' :: b) = elements a ++ elements b := by
  simp [elements, splitSlash_append]

theorem mem_elements {p e : Str} (h : e ∈ elements p) : e ∈ splitSlash p ∧ isElement e := by
  simp only [elements, List.mem_filter, Bool.and_eq_true, decide_eq_true_eq] at h
  exact ⟨h.1, h.2.1, h.2.2, splitSlash_no_slash p e h.1⟩

theorem isRooted_append (a b : Str) (h : a ≠ []) : isRooted (a ++ b) = isRooted a := by
  cases a with
  | nil => exact absurd rfl h
  | cons c cs =>
    by_cases hc : c = '/'
    · subst hc; rfl
    · simp only [List.cons_append]
      unfold isRooted
      split
      · next heq => simp only [List.cons.injEq] at heq; exact absurd heq.1 hc
      · split
        · next heq => simp only [List.cons.injEq] at heq; exact absurd heq.1 hc
        · rfl

theorem lex_append (a b : Str) (h : a ≠ []) :
    lex (a ++ '/' :: b) = (elements b).foldl cleanStep (lex a) := by
  unfold lex
  rw [elements_append, List.foldl_append, isRooted_append a _ h]

theorem foldl_cleanStep_plain (es : List Str) (l : LexPath) (h : ∀ e ∈ es, e ≠ dotdot) :
    es.foldl cleanStep l = { l with stack := es.reverse ++ l.stack } := by
  induction es generalizing l with
  | nil => rfl
  | cons e rest ih =>
    have he : e ≠ dotdot := h e (List.mem_cons_self _ _)
    simp only [List.foldl_cons]
    rw [ih _ (fun x hx => h x (List.mem_cons_of_mem _ hx))]
    simp [cleanStep, he]

theorem foldl_cleanStep_ups (k n : Nat) :
    (List.replicate k dotdot).foldl cleanStep ⟨false, n, []⟩ = ⟨false, n + k, []⟩ := by
  induction k generalizing n with
  | zero => rfl
  | succ k ih =>
    simp only [List.replicate_succ, List.foldl_cons]
    have : cleanStep ⟨false, n, []⟩ dotdot = ⟨false, n + 1, []⟩ := by
      simp [cleanStep]
    rw [this, ih]
    congr 1
    omega

theorem cleanStep_normal (l : LexPath) (e : Str) (hl : l.normal) (he : isElement e) :
    (cleanStep l e).normal := by
  unfold cleanStep
  by_cases hd : e = dotdot
  · rw [if_pos hd]
    cases hs : l.stack with
    | nil =>
      simp only []
      cases hr : l.rooted with
      | true => simpa using hl
      | false =>
        refine ⟨by simp [hr], ?_⟩
        simp
    | cons top rest =>
      refine ⟨hl.1, ?_⟩
      intro x hx
      exact hl.2 x (by rw [hs]; exact List.mem_cons_of_mem _ hx)
  · rw [if_neg hd]
    refine ⟨hl.1, ?_⟩
    intro x hx
    rcases List.mem_cons.mp hx with rfl | hx
    · exact ⟨he, hd⟩
    · exact hl.2 x hx

theorem foldl_cleanStep_normal (es : List Str) (l : LexPath) (hl : l.normal)
    (he : ∀ e ∈ es, isElement e) : (es.foldl cleanStep l).normal := by
  induction es generalizing l with
  | nil => exact hl
  | cons e rest ih =>
    exact ih _ (cleanStep_normal l e hl (he e (List.mem_cons_self _ _)))
      (fun x hx => he x (List.mem_cons_of_mem _ hx))

theorem lex_normal (p : Str) : (lex p).normal := by
  unfold lex
  apply foldl_cleanStep_normal
  · exact ⟨fun _ => rfl, fun e he => by cases he⟩
  · intro e he; exact (mem_elements he).2

theorem isElement_dotdot : isElement dotdot := by
  refine ⟨by decide, by decide, by decide⟩

theorem elements_joinSlash (xs : List Str) (h : ∀ x ∈ xs, isElement x) :
    elements (joinSlash xs) = xs := by
  cases xs with
  | nil => rfl
  | cons x rest =>
    unfold elements
    rw [splitSlash_joinSlash _ (by simp) (fun z hz => (h z hz).2.2)]
    apply List.filter_eq_self.mpr
    intro z hz
    have := h z hz
    simp [this.1, this.2.1]

theorem isRooted_joinSlash (xs : List Str) (h : ∀ x ∈ xs, isElement x) :
    isRooted (joinSlash xs) = false := by
  cases xs with
  | nil => rfl
  | cons x rest =>
    have hx := h x (List.mem_cons_self _ _)
    cases x with
    | nil => exact absurd rfl hx.1
    | cons c cs =>
      have hc : c ≠ '/' := by
        intro e; apply hx.2.2; rw [e]; exact List.mem_cons_self _ _
      have : joinSlash ((c :: cs) :: rest) = c :: (cs ++ (joinSlash ((c :: cs) :: rest)).drop (cs.length + 1)) := by
        cases rest with
        | nil => simp [joinSlash]
        | cons y r => simp [joinSlash]
      rw [this]
      unfold isRooted
      split
      · next heq => simp only [List.cons.injEq] at heq; exact absurd heq.1 hc
      · rfl

theorem lex_render (l : LexPath) (hl : l.normal) : lex l.render = l := by
  have helems : ∀ x ∈ l.elems, isElement x := by
    intro x hx
    simp only [LexPath.elems, List.mem_append, List.mem_replicate, List.mem_reverse] at hx
    rcases hx with ⟨_, rfl⟩ | hx
    · exact isElement_dotdot
    · exact (hl.2 x hx).1
  have hstack : ∀ x ∈ l.stack.reverse, x ≠ dotdot := by
    intro x hx; exact (hl.2 x (List.mem_reverse.mp hx)).2
  obtain ⟨rooted, ups, stack⟩ := l
  cases rooted with
  | true =>
    have hups : ups = 0 := hl.1 rfl
    subst hups
    simp only [LexPath.render, if_true]
    unfold lex
    have hel : elements ('/' :: joinSlash (LexPath.elems ⟨true, 0, stack⟩)) =
        LexPath.elems ⟨true, 0, stack⟩ := by
      have := elements_append [] (joinSlash (LexPath.elems ⟨true, 0, stack⟩))
      simp only [List.nil_append] at this
      rw [this, elements_joinSlash _ helems]
      rfl
    rw [hel]
    simp only [LexPath.elems, List.replicate_zero, List.nil_append] at hstack ⊢
    rw [foldl_cleanStep_plain _ _ hstack]
    simp [isRooted]
  | false =>
    simp only [LexPath.render, Bool.false_eq_true, if_false]
    by_cases hempty : LexPath.elems ⟨false, ups, stack⟩ = []
    · rw [if_pos hempty]
      simp only [LexPath.elems, List.append_eq_nil, List.replicate_eq_nil_iff,
        List.reverse_eq_nil_iff] at hempty
      obtain ⟨rfl, rfl⟩ := hempty
      rfl
    · rw [if_neg hempty]
      unfold lex
      rw [elements_joinSlash _ helems, isRooted_joinSlash _ helems]
      simp only [LexPath.elems, List.foldl_append]
      rw [foldl_cleanStep_ups, foldl_cleanStep_plain _ _ hstack]
      simp

theorem lex_Clean (p : Str) : lex (Clean p) = lex p :=
  lex_render (lex p) (lex_normal p)

theorem digitChar_plain : ∀ m, m < 10 → Nat.digitChar m ≠ '/' ∧ Nat.digitChar m ≠ '.' := by
  decide

theorem toDigitsCore_head (fuel n : Nat) (ds : Str)
    (h : ∃ c rest, ds = c :: rest ∧ c ≠ '/' ∧ c ≠ '.') :
    ∃ c rest, Nat.toDigitsCore 10 fuel n ds = c :: rest ∧ c ≠ '/' ∧ c ≠ '.' := by
  induction fuel generalizing n ds with
  | zero => exact h
  | succ fuel ih =>
    have hd := digitChar_plain (n % 10) (Nat.mod_lt _ (by decide))
    unfold Nat.toDigitsCore
    simp only []
    split
    · exact ⟨_, _, rfl, hd⟩
    · exact ih _ _ ⟨_, _, rfl, hd⟩

theorem toDigits_head (n : Nat) :
    ∃ c rest, Nat.toDigits 10 n = c :: rest ∧ c ≠ '/' ∧ c ≠ '.' := by
  have hd := digitChar_plain (n % 10) (Nat.mod_lt _ (by decide))
  unfold Nat.toDigits Nat.toDigitsCore
  simp only []
  split
  · exact ⟨_, _, rfl, hd⟩
  · exact toDigitsCore_head _ _ _ ⟨_, _, rfl, hd⟩

/-- The name of the destination starts with a decimal digit: it is not empty, not rooted, and
its first element is an element that `Clean` keeps. -/
theorem Sprintf_head (id : Nat) (name version : Str) :
    Sprintf_d_s_s id name version ≠ [] ∧ isRooted (Sprintf_d_s_s id name version) = false ∧
      elements (Sprintf_d_s_s id name version) ≠ [] := by
  obtain ⟨c, rest, hds, h1, h2⟩ := toDigits_head id
  have hform : Sprintf_d_s_s id name version = c :: (rest ++ '-' :: (name ++ '-' :: version)) := by
    unfold Sprintf_d_s_s; rw [hds]; rfl
  rw [hform]
  refine ⟨by simp, ?_, ?_⟩
  · unfold isRooted
    split
    · next heq => simp only [List.cons.injEq] at heq; exact absurd heq.1 h1
    · rfl
  · have hs : splitSlash (c :: (rest ++ '-' :: (name ++ '-' :: version))) =
        match splitSlash (rest ++ '-' :: (name ++ '-' :: version)) with
        | [] => [[c]]
        | w :: ws => (c :: w) :: ws := by
      simp [splitSlash, h1]
    unfold elements
    rw [hs]
    cases hsp : splitSlash (rest ++ '-' :: (name ++ '-' :: version)) with
    | nil => exact absurd hsp (splitSlash_ne_nil _)
    | cons w ws =>
      have hkeep : (decide (c :: w ≠ []) && decide (c :: w ≠ ['.'])) = true := by
        simp only [Bool.and_eq_true, decide_eq_true_eq]
        refine ⟨by simp, ?_⟩
        intro heq
        simp only [List.cons.injEq] at heq
        exact h2 heq.1
      simp only [List.filter_cons, hkeep, if_true]
      simp

/-- C10 (counterexample): with storage root `/srv/storage`, job id 7, name `/../../etc` and
version `x` the destination is `/srv/etc-x`, which does not lie beneath `/srv/storage`. -/
theorem localStorageDest_escapes :
    localStorageDest ⟨"/srv/storage".toList⟩ ⟨⟨7, "/../../etc".toList, "x".toList, []⟩⟩ =
        "/srv/etc-x".toList ∧
      strictlyBeneath "/srv/storage".toList
        (localStorageDest ⟨"/srv/storage".toList⟩ ⟨⟨7, "/../../etc".toList, "x".toList, []⟩⟩) =
        false := by
  decide

/-- C10 (amended): when no element of `<jobID>-<name>-<version>`, split at the separators, is
`..`, the destination `Clean(Join(LocalStoragePath, "<jobID>-<name>-<version>"))` lies strictly
beneath `LocalStoragePath`. -/
theorem localStorageDest_beneath (config : Config) (br : BuildResult)
    (h : ∀ e ∈ splitSlash
      (Sprintf_d_s_s br.resinfo.JobID br.resinfo.Name br.resinfo.Version), e ≠ dotdot) :
    strictlyBeneath config.LocalStoragePath (localStorageDest config br) = true := by
  obtain ⟨hne, hroot, hel⟩ :=
    Sprintf_head br.resinfo.JobID br.resinfo.Name br.resinfo.Version
  have hplain : ∀ e ∈ elements
      (Sprintf_d_s_s br.resinfo.JobID br.resinfo.Name br.resinfo.Version), e ≠ dotdot :=
    fun e he => h e (mem_elements he).1
  have hlen : 0 < (elements
      (Sprintf_d_s_s br.resinfo.JobID br.resinfo.Name br.resinfo.Version)).length :=
    List.length_pos.mpr hel
  have hlex : lex (localStorageDest config br) =
      { lex config.LocalStoragePath with
        stack := (elements (Sprintf_d_s_s br.resinfo.JobID br.resinfo.Name
          br.resinfo.Version)).reverse ++ (lex config.LocalStoragePath).stack } := by
    unfold localStorageDest
    rw [lex_Clean]
    unfold Join
    by_cases hr : config.LocalStoragePath = []
    · rw [if_neg (by simpa using hr), if_pos hne, lex_Clean, hr]
      unfold lex
      rw [foldl_cleanStep_plain _ _ hplain, hroot]
      rfl
    · rw [if_pos hr, lex_Clean, lex_append _ _ hr, foldl_cleanStep_plain _ _ hplain]
  unfold strictlyBeneath
  rw [hlex]
  simp only [List.reverse_append, List.reverse_reverse, List.length_append, List.length_reverse,
    decide_True, Bool.true_and, Bool.and_eq_true, decide_eq_true_eq]
  refine ⟨?_, by omega⟩
  rw [List.isPrefixOf_iff_prefix]
  exact List.prefix_append _ _

theorem localStorageDest_beneath_witness :
    strictlyBeneath storageConfig.LocalStoragePath (localStorageDest storageConfig threeFiles)
      = true :=
  localStorageDest_beneath storageConfig threeFiles (by decide)

end Remotebuild

namespace Remotebuild

/-! ## Local storage: replace, not merge -/

/-- A destination of `.` (storage path empty, name `/`, version `/../..`): the first run finds
the working directory empty and copies into it; the second run finds it filled, and
`os.RemoveAll(".")` is refused, so the second run returns the error and leaves the filesystem
as the first run left it. -/
theorem saveToLocalStorage_dot_refused :
    localStorageDest ⟨[]⟩ ⟨⟨7, "/".toList, "/../..".toList, ["/build/a.pkg".toList]⟩⟩ = ['.'] ∧
      (UploadJob.saveToLocalStorage ⟨1, .JobRunning, .LocalStorage, some []⟩
        ⟨⟨7, "/".toList, "/../..".toList, ["/build/a.pkg".toList]⟩⟩ ⟨[]⟩
        ⟨["work".toList], ⟨[(["build".toList, "a.pkg".toList], "A".toList)], []⟩, [], []⟩).result
        = none ∧
      (UploadJob.saveToLocalStorage ⟨1, .JobDone, .LocalStorage, some []⟩
        ⟨⟨7, "/".toList, "/../..".toList, ["/build/a.pkg".toList]⟩⟩ ⟨[]⟩
        (UploadJob.saveToLocalStorage ⟨1, .JobRunning, .LocalStorage, some []⟩
          ⟨⟨7, "/".toList, "/../..".toList, ["/build/a.pkg".toList]⟩⟩ ⟨[]⟩
          ⟨["work".toList], ⟨[(["build".toList, "a.pkg".toList], "A".toList)], []⟩, [],
            []⟩).world).result = some ⟨some ⟨"invalid argument"⟩⟩ := by
  decide

end Remotebuild
